import Mathlib

set_option maxRecDepth 100000

/-!
Shallow embedding of the simple_preprocessor repository:
  * src/arithmetic_parser.cpp  — expression tokenizer, shunting-yard
    converter and postfix evaluator (entry point EvaluateExpression);
  * src/simple_preprocessor.cpp — line-oriented preprocessor
    (macro substitution, conditional directives, output routing).

Strings are embedded as List Char; the C type operand_t = int is embedded
as Int together with an explicit 32-bit wrap (toInt32) at the points where
the C code narrows or where gcc's wrapping behaviour is observable.
Operator codes (C type short, built as  c0 | (c1 << 8)) are embedded as
Nat codes  c0 + c1 * 256.
-/

/-- 32-bit two's-complement narrowing, the value an int receives on gcc. -/
def toInt32 (n : Int) : Int := (n + 2 ^ 31).emod (2 ^ 32) - 2 ^ 31

/-- Clamp to long's range, as strtol does on overflow (returns LONG_MAX / LONG_MIN). -/
def clampLong (n : Int) : Int := max (-(2 ^ 63)) (min (2 ^ 63 - 1) n)

/-- Conversion of an int value to unsigned int, as in
  `this->current_output_idx = number;` (unsigned int member, int value). -/
def toUInt32Nat (n : Int) : Nat := (n.emod (2 ^ 32)).toNat

-- Operator codes from enum Operator (src/arithmetic_parser.cpp):
-- a short holding one or two characters, c0 | (c1 << 8).

def OPER_PAREN_LEFT : Nat := 40                       -- (
def OPER_PAREN_RIGHT : Nat := 41                      -- )
def OPER_MULTIPLY : Nat := 42                         -- *
def OPER_DIVIDE : Nat := 47                           -- /
def OPER_REMINDER : Nat := 37                         -- %
def OPER_ADD : Nat := 43                              -- +
def OPER_SUBTRACT : Nat := 45                         -- -
def OPER_BITWISE_LEFT : Nat := 60 + 60 * 256          -- <<
def OPER_BITWISE_RIGHT : Nat := 62 + 62 * 256         -- >>
def OPER_LESSER : Nat := 60                           -- <
def OPER_GREATER : Nat := 62                          -- >
def OPER_LESSER_EQ : Nat := 60 + 61 * 256             -- <=
def OPER_GREATER_EQ : Nat := 62 + 61 * 256            -- >=
def OPER_EQ_EQ : Nat := 61 + 61 * 256                 -- ==
def OPER_NOT_EQ : Nat := 33 + 61 * 256                -- !=
def OPER_BIT_OR : Nat := 124                          -- |
def OPER_BIT_XOR : Nat := 94                          -- ^
def OPER_BIT_AND : Nat := 38                          -- &
def OPER_LOGICAL_AND : Nat := 38 + 38 * 256           -- &&
def OPER_LOGICAL_OR : Nat := 124 + 124 * 256          -- ||
def OPER_EQ : Nat := 61                               -- =
def OPER_NOT : Nat := 33                              -- !

-- Precedence ranks from enum Precedence (PRECEDENCE_NONE = 0, then
-- MULT_DIV, ADD_SUBT, BITSHIFT, RELATIONAL, EQUALITY, BIT_AND, BIT_XOR,
-- BIT_OR, LOGICAL_AND, LOGICAL_OR).

/-- GetOperatorPrecedence from src/arithmetic_parser.cpp. -/
def getOperatorPrecedence (oper : Nat) : Nat :=
  if oper = OPER_MULTIPLY then 1
  else if oper = OPER_DIVIDE then 1
  else if oper = OPER_REMINDER then 1
  else if oper = OPER_ADD then 2
  else if oper = OPER_SUBTRACT then 2
  else if oper = OPER_BITWISE_LEFT then 3
  else if oper = OPER_BITWISE_RIGHT then 3
  else if oper = OPER_LESSER then 4
  else if oper = OPER_GREATER then 4
  else if oper = OPER_LESSER_EQ then 4
  else if oper = OPER_GREATER_EQ then 4
  else if oper = OPER_BIT_OR then 8
  else if oper = OPER_BIT_XOR then 7
  else if oper = OPER_BIT_AND then 6
  else if oper = OPER_LOGICAL_OR then 10
  else if oper = OPER_LOGICAL_AND then 9
  else if oper = OPER_EQ_EQ then 5
  else if oper = OPER_NOT_EQ then 5
  else 0

/-- struct Token: a tagged union, either an operator code or an operand.
The precedence member is always GetOperatorPrecedence of the code at the
points where it is read, so it is not stored separately here. -/
inductive Token where
  | operator (oper : Nat)
  | operand (operand : Int)
deriving DecidableEq, Repr

/-- Reading the oper field of a Token.  Only operator tokens are ever put on
the shunting-yard operator stack, but the embedding stays total: reading
.oper of an operand is the type-punned low 16 bits of the int. -/
def Token.operOf : Token → Nat
  | .operator o => o
  | .operand v => (v.emod (2 ^ 16)).toNat

def Token.isOperator : Token → Bool
  | .operator _ => true
  | .operand _ => false

def Token.isOperand : Token → Bool
  | .operator _ => false
  | .operand _ => true

-- ---------------------------------------------------------------------------
-- strtol (base 10) as used by ArithmeticTokenizer::Parse(string_view) and
-- ParserInternal::DirectOutput: value and number of characters consumed
-- (0 consumed when no digits were found, endptr = nptr).

def isStrtolSpace (c : Char) : Bool :=
  c = ' ' ∨ c = '\t' ∨ c = '\n' ∨ c = '\x0b' ∨ c = '\x0c' ∨ c = '\x0d'

def digitsVal (ds : List Char) : Nat :=
  ds.foldl (fun acc c => 10 * acc + (c.toNat - 48)) 0

/-- strtol(nptr, &endptr, 10): skip isspace characters, optional sign, then
digits; result (value, consumed) where consumed is endptr - nptr, which is 0
when no digits follow the optional sign. Overflow clamps to long's range. -/
def strtolRun (cs : List Char) : Int × Nat :=
  let ws := (cs.takeWhile isStrtolSpace).length
  let afterWs := cs.drop ws
  let signNeg : Bool := afterWs.head? = some '-'
  let signLen : Nat := if afterWs.head? = some '-' ∨ afterWs.head? = some '+' then 1 else 0
  let ds := (afterWs.drop signLen).takeWhile (fun c => c.isDigit)
  if ds.length = 0 then (0, 0)
  else
    let v : Int := if signNeg then -(digitsVal ds : Int) else (digitsVal ds : Int)
    (clampLong v, ws + signLen + ds.length)

-- ---------------------------------------------------------------------------
-- ArithmeticTokenizer

structure ArithmeticTokenizer where
  tokens : List Token      -- deque, front = first element, push_back appends
  failed : Bool
deriving Repr

def ArithmeticTokenizer.pushBack (st : ArithmeticTokenizer) (t : Token) : ArithmeticTokenizer :=
  { st with tokens := st.tokens ++ [t] }

def ArithmeticTokenizer.setBackOper (st : ArithmeticTokenizer) (o : Nat) : ArithmeticTokenizer :=
  { st with tokens := st.tokens.dropLast ++ [Token.operator o] }

/-- The switch in ArithmeticTokenizer::Parse(char): entry point per previous
operator; each case falls through to the next when its guard fails. -/
def switchEntry (prev : Nat) : Nat :=
  if prev = OPER_LESSER then 1
  else if prev = OPER_GREATER then 2
  else if prev = OPER_EQ then 3
  else if prev = OPER_NOT then 4
  else if prev = OPER_BIT_OR then 5
  else if prev = OPER_BIT_AND then 6
  else if prev = OPER_PAREN_RIGHT then 7
  else 8

/-- ArithmeticTokenizer::Parse(char c): push '(' unconditionally; push a
fresh operator after a non-operator token; otherwise run the fallthrough
switch over the previous operator, combining where a guard matches. -/
def parseChar (st : ArithmeticTokenizer) (c : Char) : ArithmeticTokenizer :=
  let cc := c.toNat
  match st.tokens.getLast? with
  | none => st.pushBack (Token.operator cc)
  | some lastTok =>
    if cc = OPER_PAREN_LEFT then st.pushBack (Token.operator cc)
    else if !lastTok.isOperator then st.pushBack (Token.operator cc)
    else
      let e := switchEntry lastTok.operOf
      if e ≤ 1 ∧ cc = OPER_EQ then st.setBackOper OPER_LESSER_EQ
      else if e ≤ 2 ∧ cc = OPER_EQ then st.setBackOper OPER_GREATER_EQ
      else if e ≤ 3 ∧ cc = OPER_EQ then st.setBackOper OPER_EQ_EQ
      else if e ≤ 4 ∧ cc = OPER_EQ then st.setBackOper OPER_NOT_EQ
      else if e ≤ 5 ∧ cc = OPER_BIT_OR then st.setBackOper OPER_LOGICAL_OR
      else if e ≤ 6 ∧ cc = OPER_BIT_AND then st.setBackOper OPER_LOGICAL_AND
      else if e ≤ 7 ∧ cc ≠ OPER_PAREN_RIGHT then st.pushBack (Token.operator cc)
      else { st with failed := true }

/-- ArithmeticTokenizer::Parse(string_view): reject consecutive operands,
otherwise parse the run with strtol; a run that strtol does not consume
entirely silently becomes the value 0. -/
def parseView (st : ArithmeticTokenizer) (run : List Char) : ArithmeticTokenizer :=
  match st.tokens.getLast? with
  | some t =>
    if t.isOperand then { st with failed := true }
    else
      let r := strtolRun run
      let number : Int := if r.2 ≠ run.length then 0 else toInt32 r.1
      st.pushBack (Token.operand number)
  | none =>
    let r := strtolRun run
    let number : Int := if r.2 ≠ run.length then 0 else toInt32 r.1
    st.pushBack (Token.operand number)

/-- IsLegalCharacter from src/arithmetic_parser.cpp. -/
def isLegalCharacter (c : Char) : Bool :=
  c ≥ ' ' ∧ c ≤ '|' ∧ c ≠ '\x7b' ∧ c ≠ '\\' ∧
  c ≠ '[' ∧ c ≠ ']' ∧ c ≠ '@' ∧ c ≠ '?' ∧
  c ≠ ';' ∧ c ≠ ':' ∧ c ≠ '.' ∧ c ≠ '\x60' ∧
  c ≠ '\'' ∧ c ≠ '"' ∧ c ≠ '$' ∧ c ≠ '#'

/-- The single-character delimiters of the Tokenize switch. -/
def isDelim (c : Char) : Bool :=
  c = ' ' ∨ c = '!' ∨ c = '%' ∨ c = '&' ∨
  c = '(' ∨ c = ')' ∨ c = '*' ∨ c = '+' ∨
  c = '-' ∨ c = '/' ∨ c = '<' ∨ c = '=' ∨
  c = '>' ∨ c = '|'

/-- The scanning loop of ArithmeticTokenizer::Tokenize.  In the source, expr
is the current suffix and ptr the length of the pending non-delimiter run;
here pending holds those ptr characters (expr[0..ptr)) and rest the suffix
after them, so the loop is structural in rest.  (The source's
`ptr == 0 && c == ' '` branch in the default case is unreachable — ' ' is
one of the case labels — and has no counterpart here.)  On a delimiter: the
pending run is flushed as an operand, failure is checked, and the delimiter
itself (unless a space) is handed to Parse(char); the trailing run is
flushed after the loop. -/
def tokenizeLoop (st : ArithmeticTokenizer) (pending : List Char) :
    List Char → ArithmeticTokenizer
  | [] => if 0 < pending.length then parseView st pending else st
  | c :: rest =>
    if isDelim c then
      let st1 := if 0 < pending.length then parseView st pending else st
      if st1.failed then st1
      else
        let st2 := if c ≠ ' ' then parseChar st1 c else st1
        tokenizeLoop st2 [] rest
    else tokenizeLoop st (pending ++ [c]) rest

/-- ArithmeticTokenizer::Tokenize: the sanitize pass returns early (without
setting failed) on an illegal character, then the scanning loop runs. -/
def tokenize (expr : List Char) : ArithmeticTokenizer :=
  if expr.any (fun c => !isLegalCharacter c) then ⟨[], false⟩
  else tokenizeLoop ⟨[], false⟩ [] expr

-- ---------------------------------------------------------------------------
-- ShuntingYard

/-- The inner while of the ')' case plus the two checks after it: pop
operators to the output until a '(' ; an exhausted stack is a failure;
the '(' itself is popped. Returns (popped run, remaining stack). -/
def popToLParen : List Token → Option (List Token × List Token)
  | [] => none
  | t :: rest =>
    if t.operOf = OPER_PAREN_LEFT then some ([], rest)
    else
      match popToLParen rest with
      | some (popped, rest2) => some (t :: popped, rest2)
      | none => none

/-- The inner while of the default operator case: pop while the top is not
'(' and precedence(o1) >= precedence(top). Returns (popped run, remaining). -/
def popGE (p1 : Nat) : List Token → (List Token × List Token)
  | [] => ([], [])
  | t :: rest =>
    if t.operOf ≠ OPER_PAREN_LEFT ∧ getOperatorPrecedence t.operOf ≤ p1 then
      let r := popGE p1 rest
      (t :: r.1, r.2)
    else ([], t :: rest)

/-- The main loop of ArithmeticTokenizer::ShuntingYard plus its final
stack-flush (which stops at a leftover '(' without error).  Result:
(output queue, failed); a parenthesis failure returns an empty queue with
failed set, as the C code returns {} after setting this->failed. -/
def syRun : List Token → List Token → List Token → (List Token × Bool)
  | [], stack, out => (out ++ stack.takeWhile (fun t => t.operOf ≠ OPER_PAREN_LEFT), false)
  | t :: rest, stack, out =>
    match t with
    | .operand _ => syRun rest stack (out ++ [t])
    | .operator o =>
      if o = OPER_PAREN_LEFT then syRun rest (t :: stack) out
      else if o = OPER_PAREN_RIGHT then
        match popToLParen stack with
        | some (popped, stack2) => syRun rest stack2 (out ++ popped)
        | none => ([], true)
      else
        let r := popGE (getOperatorPrecedence o) stack
        syRun rest (t :: r.2) (out ++ r.1)

def shuntingYard (tokens : List Token) : List Token × Bool :=
  syRun tokens [] []

-- ---------------------------------------------------------------------------
-- Postfix evaluation (the Calculate part of EvaluateExpression)

/-- The switch over t.oper in EvaluateExpression, computing right OP left
(right was popped second, left first).  none when no case matches (then the
C code pushes nothing).  + - * << wrap as 32-bit ints; out-of-range shift
counts are undefined behaviour in C++ and are embedded as 0. -/
def applyOper (o : Nat) (right left : Int) : Option Int :=
  if o = OPER_MULTIPLY then some (toInt32 (right * left))
  else if o = OPER_DIVIDE then some (right.tdiv left)
  else if o = OPER_REMINDER then some (right.tmod left)
  else if o = OPER_ADD then some (toInt32 (right + left))
  else if o = OPER_SUBTRACT then some (toInt32 (right - left))
  else if o = OPER_BITWISE_LEFT then
    some (if 0 ≤ left ∧ left < 32 then toInt32 (right * 2 ^ left.toNat) else 0)
  else if o = OPER_BITWISE_RIGHT then
    some (if 0 ≤ left ∧ left < 32 then right.fdiv (2 ^ left.toNat) else 0)
  else if o = OPER_LESSER then some (if right < left then 1 else 0)
  else if o = OPER_LESSER_EQ then some (if right ≤ left then 1 else 0)
  else if o = OPER_GREATER then some (if left < right then 1 else 0)
  else if o = OPER_GREATER_EQ then some (if left ≤ right then 1 else 0)
  else if o = OPER_BIT_OR then some (Int.lor right left)
  else if o = OPER_BIT_XOR then some (Int.xor right left)
  else if o = OPER_BIT_AND then some (Int.land right left)
  else if o = OPER_LOGICAL_OR then some (if right ≠ 0 ∨ left ≠ 0 then 1 else 0)
  else if o = OPER_LOGICAL_AND then some (if right ≠ 0 ∧ left ≠ 0 then 1 else 0)
  else if o = OPER_EQ_EQ then some (if right = left then 1 else 0)
  else if o = OPER_NOT_EQ then some (if right ≠ left then 1 else 0)
  else none

/-- The while over the postfix queue: operands is the std::vector used as a
stack, head = back.  left is popped first, right second; division or
remainder with left == 0 fails; at the end exactly one operand must remain. -/
def evalRun : List Token → List Int → (Int × Bool)
  | [], operands =>
    match operands with
    | [r] => (r, true)
    | _ => (0, false)
  | t :: rest, operands =>
    match t with
    | .operand v => evalRun rest (v :: operands)
    | .operator o =>
      match operands with
      | left :: right :: ops =>
        if (o = OPER_DIVIDE ∨ o = OPER_REMINDER) ∧ left = 0 then (0, false)
        else
          match applyOper o right left with
          | some r => evalRun rest (r :: ops)
          | none => evalRun rest ops
      | _ => (0, false)

/-- EvaluateExpression from src/arithmetic_parser.cpp. -/
def evaluateExpression (expr : List Char) : Int × Bool :=
  let tk := tokenize expr
  if tk.failed ∨ tk.tokens.length = 0 then (0, false)
  else
    let sy := shuntingYard tk.tokens
    if sy.2 then (0, false)
    else evalRun sy.1 []

-- ---------------------------------------------------------------------------
-- src/simple_preprocessor.cpp

/-- enum Conditional. -/
inductive Conditional where
  | COND_NONE
  | COND_IF
  | COND_ELIF
  | COND_ELSE
  | COND_ENDIF
deriving DecidableEq, Repr

/-- struct ParserInternal::ConditionalBranch. -/
structure ConditionalBranch where
  result : Bool
  consumed : Bool
  in_true_loop : Bool
  cond : Conditional
deriving DecidableEq, Repr

/-- A macro table entry value: std::variant<std::string_view, int>. -/
abbrev DefValue := List Char ⊕ Int

/-- struct ParserInternal (the defines map is an association list; the
conditional std::stack has its top at the head). -/
structure ParserInternal where
  defines : List (List Char × DefValue)
  current_output_idx : Nat
  condition : List ConditionalBranch
  current_line : Nat
  failed : Bool
deriving Repr

/-- The leading ' ' / '\t' stripping loops (TokenizeAndEvaluate,
DirectOutput, ParseDirective).  The source dereferences expr.data() without
a length check; when the view empties, the byte read is the '\n' (or the
temporary buffer's trailing '\n') that follows every row these functions
see, which stops the loop, so dropWhile is the observed behaviour. -/
def dropSpacesTabs (e : List Char) : List Char :=
  e.dropWhile (fun c => c = ' ' ∨ c = '\t')

/-- ParserInternal::TokenizeAndEvaluate: strip leading blanks, evaluate; a
failed evaluation sets the failed flag and yields false (the returned 0). -/
def tokenizeAndEvaluate (st : ParserInternal) (expr : List Char) : Bool × ParserInternal :=
  let e := dropSpacesTabs expr
  let result := evaluateExpression e
  if result.2 = false then (false, { st with failed := true })
  else (result.1 ≠ 0, st)

/-- ParserInternal::ParseExpression: the conditional-directive state machine. -/
def parseExpression (st : ParserInternal) (expr : List Char) (eval : Conditional) :
    ParserInternal :=
  let prev_result := match st.condition.head? with | some b => b.result | none => true
  let consumed := match st.condition.head? with | some b => b.consumed | none => false
  let in_true_loop := match st.condition.head? with | some b => b.in_true_loop | none => true
  let prev_cond := match st.condition.head? with | some b => b.cond | none => Conditional.COND_NONE
  let in_nested_loop := st.condition ≠ []
  match eval with
  | Conditional.COND_IF =>
    let r := tokenizeAndEvaluate st expr
    let st1 := r.2
    { st1 with condition := ⟨r.1, r.1, in_true_loop && prev_result, Conditional.COND_IF⟩ ::
        st1.condition }
  | Conditional.COND_ELIF =>
    if prev_cond = Conditional.COND_ELSE then { st with failed := true }
    else if ¬in_nested_loop then { st with failed := true }
    else
      let r := tokenizeAndEvaluate st expr
      let st1 := r.2
      match st1.condition with
      | b :: bs =>
        { st1 with condition :=
            { b with result := (!consumed && r.1) && in_true_loop,
                     consumed := consumed || r.1,
                     cond := Conditional.COND_ELIF } :: bs }
      | [] => st1
  | Conditional.COND_ELSE =>
    if prev_cond = Conditional.COND_ELSE then { st with failed := true }
    else if ¬in_nested_loop then { st with failed := true }
    else
      match st.condition with
      | b :: bs =>
        { st with condition :=
            { b with result := !consumed && in_true_loop,
                     consumed := true,
                     cond := Conditional.COND_ELSE } :: bs }
      | [] => st
  | Conditional.COND_ENDIF =>
    if ¬in_nested_loop then { st with failed := true }
    else { st with condition := st.condition.tail }
  | Conditional.COND_NONE => { st with failed := true }

/-- ParserInternal::DirectOutput: strip blanks, strtol, require the whole
remaining text consumed, assign the (int) value to the unsigned index. -/
def directOutput (st : ParserInternal) (expr : List Char) : ParserInternal :=
  let e := dropSpacesTabs expr
  let r := strtolRun e
  let number : Int := toInt32 r.1
  if r.2 ≠ e.length then { st with failed := true }
  else { st with current_output_idx := toUInt32Nat number }

/-- ParserInternal::ParseDirective.  expr.compare(0, n, kw) == 0 is a prefix
test; `*expr.data() != ' '` on an emptied view reads the '\n' that follows
the row, hence the head? = some ' ' test.  The endif branch removes only 4
characters, as the source does.  The header defines
PARSER_IGNORE_UNKNOWN_DIRECTIVE, so an unknown directive returns true
(append the line verbatim) — and even the other preprocessor branch of the
source only logs, without setting failed. -/
def parseDirective (st : ParserInternal) (expr0 : List Char) : Bool × ParserInternal :=
  let expr1 := dropSpacesTabs (expr0.drop 1)
  if expr1.take 2 = ['i', 'f'] then
    let e := expr1.drop 2
    if e.head? ≠ some ' ' then (false, { st with failed := true })
    else (false, parseExpression st e Conditional.COND_IF)
  else if expr1.take 4 = ['e', 'l', 'i', 'f'] then
    let e := expr1.drop 4
    if e.head? ≠ some ' ' then (false, { st with failed := true })
    else (false, parseExpression st e Conditional.COND_ELIF)
  else if expr1.take 6 = ['o', 'u', 't', 'p', 'u', 't'] then
    let e := expr1.drop 6
    if e.head? ≠ some ' ' then (false, { st with failed := true })
    else (false, directOutput st e)
  else if expr1.take 4 = ['e', 'l', 's', 'e'] then
    (false, parseExpression st (expr1.drop 4) Conditional.COND_ELSE)
  else if expr1.take 5 = ['e', 'n', 'd', 'i', 'f'] then
    (false, parseExpression st (expr1.drop 4) Conditional.COND_ENDIF)
  else (true, st)

/-- MaybePartOfWord from src/simple_preprocessor.cpp. -/
def MaybePartOfWord (c : Char) : Bool :=
  ('0' ≤ c ∧ c ≤ '9') ∨
  ('a' ≤ c ∧ c ≤ 'z') ∨
  ('A' ≤ c ∧ c ≤ 'Z') ∨
  c = '_'

/-- unordered_map::find on the defines table. -/
def lookupDefine (defines : List (List Char × DefValue)) (w : List Char) : Option DefValue :=
  match defines.find? (fun kv => kv.1 = w) with
  | some kv => some kv.2
  | none => none

/-- The substituted text for a macro value: ints are printed with %i,
string values are appended verbatim. -/
def renderValue : DefValue → List Char
  | Sum.inl s => s
  | Sum.inr v => (toString v).toList

/-- The scanning loop of ParserInternal::FindAndReplaceMacro, structurally
over the characters still to scan.  In terms of the source's views and
offsets: buf is tmp_buf, pending the not-yet-copied text line[j..i) between
the copy point j (start of line_view) and the current word start i, and
word the pending run line[i..i+w).  A word is looked up when a non-word
character ends it; on a hit the text before it and the rendered value are
copied and the copy point advances past the word; on a miss after an
earlier hit the text through the word is copied verbatim; otherwise nothing
is copied.  A run still open at the end of the scan is never looked up, and
the final append (slice j..i) excludes it. -/
def framLoop (defines : List (List Char × DefValue)) (buf pending word : List Char)
    (found : Bool) : List Char → Bool × List Char
  | [] => (found, if found then buf ++ pending else buf)
  | c :: rest =>
    if MaybePartOfWord c then framLoop defines buf pending (word ++ [c]) found rest
    else if word.length = 0 then framLoop defines buf (pending ++ [c]) word found rest
    else
      match lookupDefine defines word with
      | some v => framLoop defines (buf ++ pending ++ renderValue v) [c] [] true rest
      | none =>
        if found then framLoop defines (buf ++ pending ++ word) [c] [] found rest
        else framLoop defines buf (pending ++ word ++ [c]) [] found rest

/-- ParserInternal::FindAndReplaceMacro (tmp_buf is cleared on entry). -/
def findAndReplaceMacro (defines : List (List Char × DefValue)) (line : List Char) :
    Bool × List Char :=
  framLoop defines [] [] [] false line

/-- Formalisation of the claims' "maximal word of [A-Za-z0-9_] characters in
the line": the maximal runs of MaybePartOfWord characters, including a run
that ends only at the end of the line.  acc holds the current run reversed. -/
def maximalWordsAux (acc : List Char) : List Char → List (List Char)
  | [] => if acc.length = 0 then [] else [acc.reverse]
  | c :: cs =>
    if MaybePartOfWord c then maximalWordsAux (c :: acc) cs
    else if acc.length = 0 then maximalWordsAux [] cs
    else acc.reverse :: maximalWordsAux [] cs

def maximalWords (line : List Char) : List (List Char) :=
  maximalWordsAux [] line

-- ---------------------------------------------------------------------------
-- SimplePreprocessor::Parse

/-- Copying the host's global_defines vector into the per-parse
unordered_map: a later entry for the same key overwrites the earlier one. -/
def mapInsert (m : List (List Char × DefValue)) (k : List Char) (v : DefValue) :
    List (List Char × DefValue) :=
  if m.any (fun kv => kv.1 = k) then
    m.map (fun kv => if kv.1 = k then (k, v) else kv)
  else m ++ [(k, v)]

def initInternal (globalDefines : List (List Char × DefValue)) : ParserInternal :=
  { defines := globalDefines.foldl (fun m kv => mapInsert m kv.1 kv.2) [],
    current_output_idx := 0, condition := [], current_line := 0, failed := false }

/-- std::vector<std::string>::resize(n): grow with empty strings or shrink
to exactly n elements. -/
def resizeTo (result : List (List Char)) (n : Nat) : List (List Char) :=
  if result.length ≤ n then result ++ List.replicate (n - result.length) [] else result.take n

/-- output.append on result[idx].  An index at or beyond the vector's size
(reachable only through the unsigned wrap of a negative #output index) is
undefined behaviour in the source; List.set leaves the list unchanged
there. -/
def appendAt (result : List (List Char)) (idx : Nat) (s : List Char) : List (List Char) :=
  result.set idx (result.getD idx [] ++ s)

/-- The input split the Parse loop induces: one entry per loop iteration,
(text before the next '\n', true) — or (remaining text, false) for a final
line with no '\n' (the next_pos == npos iteration, which breaks). -/
def splitLinesNL (acc : List Char) : List Char → List (List Char × Bool)
  | [] => if acc.length = 0 then [] else [(acc.reverse, false)]
  | c :: cs =>
    if c = '\n' then (acc.reverse, true) :: splitLinesNL [] cs
    else splitLinesNL (c :: acc) cs

/-- One iteration of the Parse loop body on a row.  When the row had a
newline, FindAndReplaceMacro scans row plus its '\n' and on a hit row_final
is the rebuilt buffer minus that '\n'.  When it had none (next_pos == npos)
the source builds views of length npos and npos + 1 == 0: the macro pass
sees an empty view (no substitution) and row_final is an npos-length view —
reading it is undefined behaviour, embedded here as the remaining text.
`*row_final.data() == '#'` on an empty row reads the following '\n', hence
headD '\n'.  The resize of the result vector computes current_output_idx + 1
in unsigned int arithmetic. -/
def parseLine (st0 : ParserInternal) (result : List (List Char)) (row : List Char)
    (hadNL : Bool) : ParserInternal × List (List Char) :=
  let st1 := { st0 with current_line := st0.current_line + 1 }
  let fr := findAndReplaceMacro st1.defines (if hadNL then row ++ ['\n'] else [])
  let row_final := if fr.1 then fr.2.dropLast else row
  let pd := if row_final.headD '\n' = '#' then parseDirective st1 row_final else (true, st1)
  let st2 := pd.2
  let result1 :=
    if result.length ≤ st2.current_output_idx then
      resizeTo result ((st2.current_output_idx + 1) % 2 ^ 32)
    else result
  let emit : Bool := match st2.condition with | [] => true | b :: _ => b.result
  let result2 :=
    if pd.1 ∧ emit then appendAt result1 st2.current_output_idx (row_final ++ ['\n'])
    else result1
  (st2, result2)

/-- The while loop of SimplePreprocessor::Parse over the rows, plus the
unterminated-conditional check after it.  The failed flag is checked only at
the top of an iteration, so a failure raised while processing the final row
(or a row whose newline ends the input) never reaches the check and the
accumulated buffers are returned. -/
def runLines (st : ParserInternal) (result : List (List Char)) :
    List (List Char × Bool) → List (List Char) × ParserInternal
  | [] => (if st.condition ≠ [] then [] else result, st)
  | (row, hadNL) :: rest =>
    if st.failed then ([], st)
    else
      let r := parseLine st result row hadNL
      if hadNL then runLines r.1 r.2 rest
      else (if r.1.condition ≠ [] then [] else r.2, r.1)

/-- SimplePreprocessor::Parse(input, buflen), returning the output buffers
together with the final internal state.  An empty buffer returns {} before
any processing (the state component is the fresh one, for totality). -/
def parseRun (globalDefines : List (List Char × DefValue)) (input : List Char) :
    List (List Char) × ParserInternal :=
  if input.length = 0 then ([], initInternal globalDefines)
  else runLines (initInternal globalDefines) [] (splitLinesNL [] input)

/-- The output buffers of SimplePreprocessor::Parse. -/
def parseBuffers (globalDefines : List (List Char × DefValue)) (input : List Char) :
    List (List Char) :=
  (parseRun globalDefines input).1

-- ---------------------------------------------------------------------------
-- The conversion-plus-evaluation part of EvaluateExpression on an already
-- tokenized sequence (everything after the tokenizer and its checks), and
-- the recursive-descent oracle the spec states as a cross-check.

/-- ShuntingYard followed by the Calculate loop, as EvaluateExpression runs
them on the tokenizer's output. -/
def evaluateTokens (tokens : List Token) : Int × Bool :=
  let sy := shuntingYard tokens
  if sy.2 then (0, false) else evalRun sy.1 []

/-- Expression trees for the oracle. -/
inductive Expr where
  | num (v : Int)
  | bin (o : Nat) (l r : Expr)
deriving DecidableEq, Repr

/-- All operators of a tree are real binary operators (the ones the
precedence table ranks). -/
def exprOK : Expr → Prop
  | .num _ => True
  | .bin o l r => 1 ≤ getOperatorPrecedence o ∧ exprOK l ∧ exprOK r

/-- Postfix (reverse Polish) rendering of a tree. -/
def postfixOf : Expr → List Token
  | .num v => [Token.operand v]
  | .bin o l r => postfixOf l ++ postfixOf r ++ [Token.operator o]

/-- Recursive evaluation of a tree with the evaluator's operator semantics:
operands first, left to right, division or remainder by zero fails. -/
def evalA : Expr → Option Int
  | .num v => some v
  | .bin o l r =>
    match evalA l, evalA r with
    | some a, some b =>
      if (o = OPER_DIVIDE ∨ o = OPER_REMINDER) ∧ b = 0 then none
      else applyOper o a b
    | _, _ => none

/-- The two modes of the oracle parser: parse an expression whose top-level
operators rank at most p, or continue the binary-operator loop with the
tree parsed so far. -/
inductive PMode where
  | expr (p : Nat)
  | loop (p : Nat) (left : Expr)
deriving Repr

/-- Modelled from the spec: the recursive-descent parse of a token sequence
with the same precedence table (spec §8's cross-check oracle), in
precedence-climbing form, structurally recursive on a fuel bound.
In expr mode an atom is an operand or a parenthesized expression (parsed at
the loosest rank 10) followed by the loop; in loop mode, while the next
token is an operator ranking at most p (rank 1 binds tightest, as in enum
Precedence), its right operand is parsed at rank (precedence - 1) — making
equal-rank operators left-associative — and folded into the tree. -/
def parseGo : Nat → PMode → List Token → Option (Expr × List Token)
  | 0, _, _ => none
  | fuel + 1, PMode.expr p, ts =>
    match ts with
    | Token.operand v :: rest => parseGo fuel (PMode.loop p (Expr.num v)) rest
    | Token.operator o :: rest =>
      if o = OPER_PAREN_LEFT then
        match parseGo fuel (PMode.expr 10) rest with
        | some (e, Token.operator o2 :: rest2) =>
          if o2 = OPER_PAREN_RIGHT then parseGo fuel (PMode.loop p e) rest2 else none
        | _ => none
      else none
    | [] => none
  | fuel + 1, PMode.loop p left, ts =>
    match ts with
    | Token.operator o :: rest =>
      if 1 ≤ getOperatorPrecedence o ∧ getOperatorPrecedence o ≤ p then
        match parseGo fuel (PMode.expr (getOperatorPrecedence o - 1)) rest with
        | some (r, rest2) => parseGo fuel (PMode.loop p (Expr.bin o left r)) rest2
        | none => none
      else some (left, ts)
    | _ => some (left, ts)

def parseE (fuel p : Nat) (ts : List Token) : Option (Expr × List Token) :=
  parseGo fuel (PMode.expr p) ts

def parseL (fuel p : Nat) (left : Expr) (ts : List Token) : Option (Expr × List Token) :=
  parseGo fuel (PMode.loop p left) ts

/-- The rank bound a parser mode works under. -/
def PMode.rank : PMode → Nat
  | .expr p => p
  | .loop p _ => p

/-- The tree a loop mode carries is well-formed (vacuous in expr mode). -/
def PMode.carriedOK : PMode → Prop
  | .expr _ => True
  | .loop _ left => exprOK left

/-- Modelled from the spec: a token sequence is a well-formed expression
when the oracle parser consumes it entirely (the fuel is ample: the parser
spends at most two units per token). -/
def parseFull (ts : List Token) : Option Expr :=
  match parseE (2 * ts.length + 4) 10 ts with
  | some (e, []) => some e
  | _ => none

/-- Modelled from the spec: "a direct recursive-descent evaluation of the
expression using the same precedence table" — parse by precedence climbing
over getOperatorPrecedence, then evaluate the tree recursively, with the
same (value, ok) surface as EvaluateExpression. -/
def recursiveDescentEval (ts : List Token) : Int × Bool :=
  match parseFull ts with
  | some e =>
    match evalA e with
    | some v => (v, true)
    | none => (0, false)
  | none => (0, false)

/-- The top of the shunting-yard operator stack cannot be popped by an
incoming operator of rank at most p: it is a '(' or ranks strictly looser
than p. -/
def guardTop (p : Nat) (s : List Token) : Prop :=
  ∀ t, s.head? = some t →
    t.operOf = OPER_PAREN_LEFT ∨ p < getOperatorPrecedence t.operOf

/-- A run of stack entries that are real operators of rank between 1 and p. -/
def chainBound (p : Nat) (ops : List Token) : Prop :=
  ∀ t ∈ ops, 1 ≤ getOperatorPrecedence t.operOf ∧ getOperatorPrecedence t.operOf ≤ p

-- ===========================================================================
-- Theorems
-- ===========================================================================

/-- Claim C1: the claim states that "1 << 2" is tokenized into a single <<
operator and evaluates to (4, true).  The code disagrees: the combining
switch in ArithmeticTokenizer::Parse(char) has no case turning '<' '<' into
OPER_BITWISE_LEFT (the fallthrough reaches the ')' case and pushes a second
separate '<' token), so the postfix queue for "1 << 2" is 1 2 < < and the
evaluation underflows: EvaluateExpression("1 << 2") = (0, false). -/
theorem C1_shift_operator_never_combined :
    (tokenize "1 << 2".toList).tokens =
      [Token.operand 1, Token.operator OPER_LESSER, Token.operator OPER_LESSER,
       Token.operand 2] ∧
    evaluateExpression "1 << 2".toList = (0, false) := by
  constructor
  · decide
  · decide

/-- Claim C2: the claim states that a level's emit flag combines its own
truth with ancestorTrue, so lines under an inner #if that evaluates true but
sits inside a non-emitting outer branch are suppressed.  The code disagrees:
COND_IF pushes { result = curr_result, ... } without conjoining
in_true_loop && prev_result (those only gate elif/else), and the emission
test reads only condition.top().result — so under an outer "#if 0", an
inner "#if 1", the line X, and the two "#endif" rows, X is emitted. -/
theorem C2_nested_if_not_gated :
    parseBuffers [] "#if 0\n#if 1\nX\n#endif\n#endif\n".toList = ["X\n".toList] := by
  decide

/-- Claim C4: the claim states that any failure raised at any point during
Parse — including on the last input line — yields empty output with all
buffers discarded.  The code disagrees: the failed flag is only tested at
the top of the next loop iteration, so a failure raised while processing
the final line ("#else" without an open "#if" here) returns the partial
buffers: Parse("A\n#else\n") returns ["A\n"] although failed is set. -/
theorem C4_failure_on_last_line_keeps_partial_output :
    (parseRun [] "A\n#else\n".toList).2.failed = true ∧
    (parseRun [] "A\n#else\n".toList).1 = ["A\n".toList] := by
  constructor
  · decide
  · decide

/-- Claim C5 counterexample: the claim states the division-by-zero check
fires exactly when the second-popped, syntactically-first operand (the
dividend as written) is zero.  On "0 / 5" the dividend as written is 0, so
the claim demands a failure, but the code returns (0, true); and on
"5 % 0" the dividend 5 is nonzero, so the claim demands no
division-by-zero failure, but the code returns (0, false). -/
theorem C5_zero_check_on_dividend_refuted :
    evaluateExpression "0 / 5".toList = (0, true) ∧
    evaluateExpression "5 % 0".toList = (0, false) := by
  constructor
  · decide
  · decide

/-- Claim C6: EvaluateExpression("1 / 0") returns value 0 and success flag
false (the division-by-zero failure path). -/
theorem C6_one_div_zero :
    evaluateExpression "1 / 0".toList = (0, false) := by
  decide

/-- Claim C7: the claim states that under the default configuration an
unknown directive is a fatal error returning empty output.  The code
disagrees: the header itself defines PARSER_IGNORE_UNKNOWN_DIRECTIVE, so
ParseDirective returns true for an unknown directive and the line is passed
through verbatim (and even the non-ignoring branch only logs without
setting failed): Parse("#foo\n") succeeds with output ["#foo\n"]. -/
theorem C7_unknown_directive_passes_through :
    (parseRun [] "#foo\n".toList).2.failed = false ∧
    parseBuffers [] "#foo\n".toList = ["#foo\n".toList] := by
  constructor
  · decide
  · decide

/-- Claim C8: the claim states that an output index that does not parse as
a non-negative integer — including a negative number — fails with
"expected index in output directive".  The code disagrees on negative
numbers: strtol parses "-1" completely, so DirectOutput does not fail and
assigns the value to the unsigned index, which wraps to 4294967295 (the
later resize computes idx + 1 = 0 in unsigned arithmetic and the
result[idx] access is out of bounds — undefined behaviour).  A genuinely
non-numeric index does fail, and a non-negative one is stored as given. -/
theorem C8_negative_output_index_accepted :
    (directOutput (initInternal []) " -1".toList).failed = false ∧
    (directOutput (initInternal []) " -1".toList).current_output_idx = 4294967295 ∧
    (directOutput (initInternal []) " abc".toList).failed = true ∧
    (directOutput (initInternal []) " 3".toList).failed = false ∧
    (directOutput (initInternal []) " 3".toList).current_output_idx = 3 := by
  refine ⟨?_, ?_, ?_, ?_, ?_⟩ <;> decide

/-- Claim C10: Parse on an empty input buffer returns an empty sequence of
output buffers (no buffers at all), while a non-empty input whose lines are
all suppressed returns at least one buffer (here exactly one, empty):
the result vector is resized to index 0 + 1 before the emission check on
the very first line. -/
theorem C10_empty_input_vs_suppressed_input :
    (∀ gd, parseBuffers gd [] = []) ∧
    parseBuffers [] "#if 0\nX\n#endif\n".toList = [[]] := by
  constructor
  · intro gd
    rfl
  · decide

-- ---------------------------------------------------------------------------
-- C9: macro substitution on a line without matching words

/-- If no word that the scan can still complete (the words of the current
run extended by the remaining text) is in the table, the scan never copies
anything and reports found = false. -/
theorem framLoop_nomatch (defines : List (List Char × DefValue)) :
    ∀ rest buf pending word,
      (∀ u ∈ maximalWordsAux word.reverse rest, lookupDefine defines u = none) →
      framLoop defines buf pending word false rest = (false, buf) := by
  intro rest
  induction rest with
  | nil =>
    intro buf pending word _
    simp [framLoop]
  | cons c cs ih =>
    intro buf pending word h
    by_cases hw : MaybePartOfWord c
    · have h2 : ∀ u ∈ maximalWordsAux (word ++ [c]).reverse cs, lookupDefine defines u = none := by
        intro u hu
        apply h
        simp only [maximalWordsAux, hw, if_true]
        simpa using hu
      simpa [framLoop, hw] using ih buf pending (word ++ [c]) h2
    · by_cases hz : word.length = 0
      · have hzl : word = [] := List.length_eq_zero.mp hz
        have h2 : ∀ u ∈ maximalWordsAux [] cs, lookupDefine defines u = none := by
          intro u hu
        
          apply h
          simp [maximalWordsAux, hw, hzl]
          exact hu
        simpa [framLoop, hw, hz] using ih buf (pending ++ [c]) word (by simpa [hzl] using h2)
      · have hmem : word ∈ maximalWordsAux word.reverse (c :: cs) := by
          simp [maximalWordsAux, hw, hz]
        have hlook : lookupDefine defines word = none := h word hmem
        have h2 : ∀ u ∈ maximalWordsAux [] cs, lookupDefine defines u = none := by
          intro u hu
          apply h
          simp [maximalWordsAux, hw, hz]
          right
          exact hu
        simpa [framLoop, hw, hz, hlook] using ih buf (pending ++ word ++ [c]) [] (by simpa using h2)

/-- Claim C9: for a line and macro table such that no maximal word of
[A-Za-z0-9_] characters in the line equals a macro name,
FindAndReplaceMacro reports that no substitution occurred (found = false,
with the rebuilt buffer left empty), so the caller keeps using the
original line unmodified. -/
theorem C9_no_matching_word_no_substitution
    (defines : List (List Char × DefValue)) (line : List Char)
    (h : ∀ u ∈ maximalWords line, lookupDefine defines u = none) :
    findAndReplaceMacro defines line = (false, []) := by
  have := framLoop_nomatch defines line [] [] [] (by simpa [maximalWords] using h)
  simpa [findAndReplaceMacro] using this

/-- Witness for C9 at a concrete line and table. -/
theorem C9_no_matching_word_no_substitution_witness :
    (∀ u ∈ maximalWords "bar baz\n".toList,
        lookupDefine [("FOO".toList, Sum.inr (1 : Int))] u = none) ∧
    findAndReplaceMacro [("FOO".toList, Sum.inr (1 : Int))] "bar baz\n".toList = (false, []) :=
  ⟨by decide, C9_no_matching_word_no_substitution _ _ (by decide)⟩

/-- Claim C5 as amended: in postfix evaluation a division or remainder
fails with "division by zero" exactly when the operand bound to left is
zero, where left is the first-popped operand — the syntactically second
operand, the divisor as written — so  a OP b  fails exactly when b = 0,
and otherwise divides or takes the remainder of a by b. -/
theorem C5_zero_check_is_on_divisor (a b : Int) :
    evaluateTokens [Token.operand a, Token.operator OPER_DIVIDE, Token.operand b] =
      (if b = 0 then (0, false) else (a.tdiv b, true)) ∧
    evaluateTokens [Token.operand a, Token.operator OPER_REMINDER, Token.operand b] =
      (if b = 0 then (0, false) else (a.tmod b, true)) := by
  constructor <;>
  · by_cases hb : b = 0 <;>
      simp [evaluateTokens, shuntingYard, syRun, popGE, evalRun, applyOper, Token.operOf,
        getOperatorPrecedence, hb, OPER_DIVIDE, OPER_PAREN_LEFT, OPER_PAREN_RIGHT,
        OPER_MULTIPLY, OPER_REMINDER, OPER_ADD, OPER_SUBTRACT, OPER_BITWISE_LEFT,
        OPER_BITWISE_RIGHT, OPER_LESSER, OPER_GREATER, OPER_LESSER_EQ, OPER_GREATER_EQ,
        OPER_EQ_EQ, OPER_NOT_EQ, OPER_BIT_OR, OPER_BIT_XOR, OPER_BIT_AND,
        OPER_LOGICAL_AND, OPER_LOGICAL_OR]

-- ---------------------------------------------------------------------------
-- C3: the shunting-yard pipeline against the recursive-descent oracle

/-- A ranked operator is not a parenthesis (both parens rank 0). -/
theorem prec_pos_ne_paren (o : Nat) (h : 1 ≤ getOperatorPrecedence o) :
    o ≠ OPER_PAREN_LEFT ∧ o ≠ OPER_PAREN_RIGHT := by
  constructor <;> rintro rfl <;> revert h <;> decide

/-- Every operator the precedence table ranks has a case in the evaluation
switch. -/
theorem applyOper_isSome (o : Nat) (a b : Int)
    (h : 1 ≤ getOperatorPrecedence o) : (applyOper o a b).isSome = true := by
  by_cases h1 : o = OPER_MULTIPLY
  · subst h1; rfl
  by_cases h2 : o = OPER_DIVIDE
  · subst h2; rfl
  by_cases h3 : o = OPER_REMINDER
  · subst h3; rfl
  by_cases h4 : o = OPER_ADD
  · subst h4; rfl
  by_cases h5 : o = OPER_SUBTRACT
  · subst h5; rfl
  by_cases h6 : o = OPER_BITWISE_LEFT
  · subst h6; rfl
  by_cases h7 : o = OPER_BITWISE_RIGHT
  · subst h7; rfl
  by_cases h8 : o = OPER_LESSER
  · subst h8; rfl
  by_cases h9 : o = OPER_GREATER
  · subst h9; rfl
  by_cases h10 : o = OPER_LESSER_EQ
  · subst h10; rfl
  by_cases h11 : o = OPER_GREATER_EQ
  · subst h11; rfl
  by_cases h12 : o = OPER_BIT_OR
  · subst h12; rfl
  by_cases h13 : o = OPER_BIT_XOR
  · subst h13; rfl
  by_cases h14 : o = OPER_BIT_AND
  · subst h14; rfl
  by_cases h15 : o = OPER_LOGICAL_OR
  · subst h15; rfl
  by_cases h16 : o = OPER_LOGICAL_AND
  · subst h16; rfl
  by_cases h17 : o = OPER_EQ_EQ
  · subst h17; rfl
  by_cases h18 : o = OPER_NOT_EQ
  · subst h18; rfl
  exfalso
  unfold getOperatorPrecedence at h
  rw [if_neg h1, if_neg h2, if_neg h3, if_neg h4, if_neg h5, if_neg h6, if_neg h7,
    if_neg h8, if_neg h9, if_neg h10, if_neg h11, if_neg h12, if_neg h13, if_neg h14,
    if_neg h15, if_neg h16, if_neg h17, if_neg h18] at h
  exact absurd h (by norm_num)

/-- The final stack flush never stops inside a run of ranked operators. -/
theorem takeWhile_ne_lparen (ops : List Token)
    (h : ∀ t ∈ ops, 1 ≤ getOperatorPrecedence t.operOf) :
    ops.takeWhile (fun t => t.operOf ≠ OPER_PAREN_LEFT) = ops := by
  rw [List.takeWhile_eq_self_iff]
  intro t ht
  have hne : t.operOf ≠ OPER_PAREN_LEFT := (prec_pos_ne_paren _ (h t ht)).1
  simpa using hne

/-- A guarded stack top is not popped by an operator of rank at most p. -/
theorem popGE_skip (p1 p : Nat) (s : List Token) (hg : guardTop p s) (hp : p1 ≤ p) :
    popGE p1 s = ([], s) := by
  cases s with
  | nil => rfl
  | cons t ts =>
    rcases hg t rfl with hlp | hgt
    · simp [popGE, hlp]
    · have hnle : ¬(getOperatorPrecedence t.operOf ≤ p1) := by omega
      simp [popGE, hnle]

/-- An incoming operator of rank p1 pops exactly a chain of operators of
rank at most p1 sitting on a guarded stack. -/
theorem popGE_chain (p1 p : Nat) (ops s : List Token)
    (hops : ∀ t ∈ ops, 1 ≤ getOperatorPrecedence t.operOf ∧
      getOperatorPrecedence t.operOf ≤ p1)
    (hg : guardTop p s) (hp : p1 ≤ p) :
    popGE p1 (ops ++ s) = (ops, s) := by
  induction ops with
  | nil => simpa using popGE_skip p1 p s hg hp
  | cons t ts ih =>
    obtain ⟨h1, h2⟩ := hops t (by simp)
    have hne : t.operOf ≠ OPER_PAREN_LEFT := (prec_pos_ne_paren _ h1).1
    simp [popGE, hne, h2, ih (fun u hu => hops u (by simp [hu]))]

/-- A ')' pops exactly a chain of ranked operators down to the matching
'(' and discards that '('. -/
theorem popToLParen_chain (ops s : List Token)
    (hops : ∀ t ∈ ops, 1 ≤ getOperatorPrecedence t.operOf) :
    popToLParen (ops ++ Token.operator OPER_PAREN_LEFT :: s) = some (ops, s) := by
  induction ops with
  | nil => simp [popToLParen, Token.operOf]
  | cons t ts ih =>
    have hne : t.operOf ≠ OPER_PAREN_LEFT := (prec_pos_ne_paren _ (hops t (by simp))).1
    simp [popToLParen, hne, ih (fun u hu => hops u (by simp [hu]))]

/-- Running the postfix machine over the postfix rendering of a tree:
success pushes the tree's value, an evaluation failure (division or
remainder by zero) aborts with (0, false). -/
theorem evalRun_postfixOf (e : Expr) (hok : exprOK e) :
    (∀ v, evalA e = some v →
      ∀ rest st, evalRun (postfixOf e ++ rest) st = evalRun rest (v :: st)) ∧
    (evalA e = none → ∀ rest st, evalRun (postfixOf e ++ rest) st = (0, false)) := by
  induction e with
  | num v =>
    refine ⟨?_, ?_⟩
    · intro w hw rest st
      simp only [evalA, Option.some_inj] at hw
      subst hw
      simp [postfixOf, evalRun]
    · intro hw
      simp [evalA] at hw
  | bin o l r ihl ihr =>
    have hok2 : 1 ≤ getOperatorPrecedence o ∧ exprOK l ∧ exprOK r := hok
    obtain ⟨ho, hl, hr⟩ := hok2
    have ihl2 := ihl hl
    have ihr2 := ihr hr
    constructor
    · intro v hv rest st
      simp only [postfixOf, List.append_assoc]
      cases hvl : evalA l with
      | none =>
        simp only [evalA, hvl] at hv
        exact absurd hv (by simp)
      | some a =>
        cases hvr : evalA r with
        | none =>
          simp only [evalA, hvl, hvr] at hv
          exact absurd hv (by simp)
        | some b =>
          simp only [evalA, hvl, hvr] at hv
          rw [ihl2.1 a hvl, ihr2.1 b hvr]
          by_cases hz : (o = OPER_DIVIDE ∨ o = OPER_REMINDER) ∧ b = 0
          · rw [if_pos hz] at hv
            exact absurd hv (by simp)
          · rw [if_neg hz] at hv
            simp [evalRun, hz, hv]
    · intro hv rest st
      simp only [postfixOf, List.append_assoc]
      cases hvl : evalA l with
      | none => rw [ihl2.2 hvl]
      | some a =>
        cases hvr : evalA r with
        | none =>
          rw [ihl2.1 a hvl, ihr2.2 hvr]
        | some b =>
          simp only [evalA, hvl, hvr] at hv
          rw [ihl2.1 a hvl, ihr2.1 b hvr]
          by_cases hz : (o = OPER_DIVIDE ∨ o = OPER_REMINDER) ∧ b = 0
          · simp [evalRun, hz]
          · rw [if_neg hz] at hv
            exact absurd (applyOper_isSome o a b ho) (by simp [hv])

-- The shunting-yard simulation of the oracle parse, and the C3 theorem.

theorem syRun_operand (v : Int) (rest stack out : List Token) :
    syRun (Token.operand v :: rest) stack out = syRun rest stack (out ++ [Token.operand v]) := rfl

theorem syRun_lparen (rest stack out : List Token) :
    syRun (Token.operator OPER_PAREN_LEFT :: rest) stack out =
      syRun rest (Token.operator OPER_PAREN_LEFT :: stack) out := rfl

theorem syRun_rparen (rest stack out popped stack2 : List Token)
    (h : popToLParen stack = some (popped, stack2)) :
    syRun (Token.operator OPER_PAREN_RIGHT :: rest) stack out = syRun rest stack2 (out ++ popped) := by
  simp [syRun, h, OPER_PAREN_LEFT, OPER_PAREN_RIGHT]

theorem syRun_oper (o : Nat) (ho1 : o ≠ OPER_PAREN_LEFT) (ho2 : o ≠ OPER_PAREN_RIGHT)
    (rest stack out : List Token) :
    syRun (Token.operator o :: rest) stack out =
      syRun rest (Token.operator o :: (popGE (getOperatorPrecedence o) stack).2)
        (out ++ (popGE (getOperatorPrecedence o) stack).1) := by
  simp [syRun, ho1, ho2]

theorem syRun_nil (stack out : List Token) :
    syRun [] stack out = (out ++ stack.takeWhile (fun t => t.operOf ≠ OPER_PAREN_LEFT), false) := rfl

theorem parseGo_rest : ∀ fuel mode ts e rest, parseGo fuel mode ts = some (e, rest) →
    ∀ o2, rest.head? = some (Token.operator o2) →
      ¬(1 ≤ getOperatorPrecedence o2 ∧ getOperatorPrecedence o2 ≤ mode.rank) := by
  intro fuel
  induction fuel with
  | zero =>
    intro mode ts e rest h
    simp [parseGo] at h
  | succ fuel ih =>
    intro mode ts e rest h o2 hh
    cases mode with
    | expr p =>
      cases ts with
      | nil => simp [parseGo] at h
      | cons t ts1 =>
        cases t with
        | operand v => exact ih (PMode.loop p (Expr.num v)) ts1 e rest h o2 hh
        | operator o =>
          simp only [parseGo] at h
          split at h
          · rename_i ho
            split at h
            · rename_i e1 o3 rest2 heq
              split at h
              · rename_i ho3
                exact ih (PMode.loop p e1) rest2 e rest h o2 hh
              · exact absurd h (by simp)
            · exact absurd h (by simp)
          · exact absurd h (by simp)
    | loop p left =>
      cases ts with
      | nil =>
        simp only [parseGo, Option.some_inj, Prod.mk.injEq] at h
        obtain ⟨he, hr⟩ := h
        subst hr
        simp at hh
      | cons t ts1 =>
        cases t with
        | operand v =>
          simp only [parseGo, Option.some_inj, Prod.mk.injEq] at h
          obtain ⟨he, hr⟩ := h
          subst hr
          simp at hh
        | operator o =>
          simp only [parseGo] at h
          split at h
          · rename_i hg
            split at h
            · rename_i r rest2 heq
              exact ih (PMode.loop p (Expr.bin o left r)) rest2 e rest h o2 hh
            · exact absurd h (by simp)
          · rename_i hg
            simp only [Option.some_inj, Prod.mk.injEq] at h
            obtain ⟨he, hr⟩ := h
            subst hr
            simp only [List.head?_cons, Option.some_inj] at hh
            injection hh with ho2
            subst ho2
            simpa [PMode.rank] using hg

theorem syRun_parseGo : ∀ fuel,
    (∀ p ts e rest s out, parseGo fuel (PMode.expr p) ts = some (e, rest) → guardTop p s →
      ∃ ops out2, syRun ts s out = syRun rest (ops ++ s) out2 ∧
        out2 ++ ops = out ++ postfixOf e ∧ chainBound p ops) ∧
    (∀ p left ts e rest s out ops0 base,
      parseGo fuel (PMode.loop p left) ts = some (e, rest) → guardTop p s →
      chainBound p ops0 →
      (∀ o2 ts1, ts = Token.operator o2 :: ts1 → 1 ≤ getOperatorPrecedence o2 →
        getOperatorPrecedence o2 ≤ p →
        ∀ t ∈ ops0, getOperatorPrecedence t.operOf ≤ getOperatorPrecedence o2) →
      out ++ ops0 = base ++ postfixOf left →
      ∃ ops out2, syRun ts (ops0 ++ s) out = syRun rest (ops ++ s) out2 ∧
        out2 ++ ops = base ++ postfixOf e ∧ chainBound p ops) := by
  intro fuel
  induction fuel with
  | zero =>
    constructor
    · intro p ts e rest s out h
      simp [parseGo] at h
    · intro p left ts e rest s out ops0 base h
      simp [parseGo] at h
  | succ fuel ih =>
    obtain ⟨ihE, ihL⟩ := ih
    constructor
    · -- expr mode
      intro p ts e rest s out h hg
      cases ts with
      | nil => simp [parseGo] at h
      | cons t ts1 =>
        cases t with
        | operand v =>
          have h2 : parseGo fuel (PMode.loop p (Expr.num v)) ts1 = some (e, rest) := h
          obtain ⟨ops, out2, hrun, hout, hch⟩ :=
            ihL p (Expr.num v) ts1 e rest s (out ++ [Token.operand v]) [] out h2 hg
              (by intro t ht; simp at ht)
              (by intro o2 ts2 _ _ _ t ht; simp at ht)
              (by simp [postfixOf])
          refine ⟨ops, out2, ?_, hout, hch⟩
          rw [syRun_operand]
          simpa using hrun
        | operator o =>
          simp only [parseGo] at h
          split at h
          · rename_i ho
            split at h
            · rename_i e1 o3 rest2 heq
              split at h
              · rename_i ho3
                subst ho
                subst ho3
                obtain ⟨ops1, out1, hrun1, hout1, hch1⟩ :=
                  ihE 10 ts1 e1 (Token.operator OPER_PAREN_RIGHT :: rest2)
                    (Token.operator OPER_PAREN_LEFT :: s) out heq
                    (by
                      intro t ht
                      simp only [List.head?_cons, Option.some_inj] at ht
                      subst ht
                      left
                      rfl)
                have hpop : popToLParen (ops1 ++ Token.operator OPER_PAREN_LEFT :: s) =
                    some (ops1, s) :=
                  popToLParen_chain ops1 s (fun t ht => (hch1 t ht).1)
                obtain ⟨ops, out2, hrun2, hout2, hch⟩ :=
                  ihL p e1 rest2 e rest s (out ++ postfixOf e1) [] out h hg
                    (by intro t ht; simp at ht)
                    (by intro o2 ts2 _ _ _ t ht; simp at ht)
                    (by simp)
                refine ⟨ops, out2, ?_, hout2, hch⟩
                rw [syRun_lparen, hrun1, syRun_rparen _ _ _ _ _ hpop, hout1]
                simpa using hrun2
              · exact absurd h (by simp)
            · exact absurd h (by simp)
          · exact absurd h (by simp)
    · -- loop mode
      intro p left ts e rest s out ops0 base h hg hch0 hhead hbase
      cases ts with
      | nil =>
        simp only [parseGo, Option.some_inj, Prod.mk.injEq] at h
        obtain ⟨he, hr⟩ := h
        subst he
        subst hr
        exact ⟨ops0, out, rfl, hbase, hch0⟩
      | cons t ts1 =>
        cases t with
        | operand v =>
          simp only [parseGo, Option.some_inj, Prod.mk.injEq] at h
          obtain ⟨he, hr⟩ := h
          subst he
          subst hr
          exact ⟨ops0, out, rfl, hbase, hch0⟩
        | operator o =>
          simp only [parseGo] at h
          split at h
          · rename_i hg2
            split at h
            · rename_i r rest2 heq
              have hne := prec_pos_ne_paren o hg2.1
              have hops0le : ∀ t ∈ ops0,
                  getOperatorPrecedence t.operOf ≤ getOperatorPrecedence o :=
                hhead o ts1 rfl hg2.1 hg2.2
              have hpop : popGE (getOperatorPrecedence o) (ops0 ++ s) = (ops0, s) :=
                popGE_chain (getOperatorPrecedence o) p ops0 s
                  (fun t ht => ⟨(hch0 t ht).1, hops0le t ht⟩) hg hg2.2
              obtain ⟨ops1, out1, hrun1, hout1, hch1⟩ :=
                ihE (getOperatorPrecedence o - 1) ts1 r rest2 (Token.operator o :: s)
                  (out ++ ops0) heq
                  (by
                    intro t ht
                    simp only [List.head?_cons, Option.some_inj] at ht
                    subst ht
                    right
                    simp only [Token.operOf]
                    omega)
              obtain ⟨ops, out2, hrun2, hout2, hch⟩ :=
                ihL p (Expr.bin o left r) rest2 e rest s out1 (ops1 ++ [Token.operator o])
                  base h hg
                  (by
                    intro t ht
                    rcases List.mem_append.mp ht with h1 | h1
                    · obtain ⟨ha, hb⟩ := hch1 t h1
                      exact ⟨ha, by omega⟩
                    · simp only [List.mem_singleton] at h1
                      subst h1
                      simp only [Token.operOf]
                      exact hg2)
                  (by
                    intro o2 ts2 hts2 ho2a ho2b t ht
                    have hrest := parseGo_rest fuel (PMode.expr (getOperatorPrecedence o - 1))
                      ts1 r rest2 heq o2 (by rw [hts2]; rfl)
                    simp only [PMode.rank] at hrest
                    have ho2ge : getOperatorPrecedence o ≤ getOperatorPrecedence o2 := by
                      by_contra hcon
                      exact hrest ⟨ho2a, by omega⟩
                    rcases List.mem_append.mp ht with h1 | h1
                    · obtain ⟨ha, hb⟩ := hch1 t h1
                      omega
                    · simp only [List.mem_singleton] at h1
                      subst h1
                      simpa [Token.operOf] using ho2ge)
                  (by
                    rw [List.append_assoc] at hout1
                    have h3 : out1 ++ (ops1 ++ [Token.operator o]) =
                        (out1 ++ ops1) ++ [Token.operator o] := by simp
                    rw [h3, hout1]
                    have h4 : out ++ (ops0 ++ postfixOf r) ++ [Token.operator o] =
                        (out ++ ops0) ++ (postfixOf r ++ [Token.operator o]) := by simp
                    rw [h4, hbase]
                    simp [postfixOf])
              refine ⟨ops, out2, ?_, hout2, hch⟩
              rw [syRun_oper o hne.1 hne.2, hpop]
              dsimp only
              rw [hrun1]
              have : ops1 ++ Token.operator o :: s = (ops1 ++ [Token.operator o]) ++ s := by
                simp
              rw [this]
              exact hrun2
            · exact absurd h (by simp)
          · rename_i hg2
            simp only [Option.some_inj, Prod.mk.injEq] at h
            obtain ⟨he, hr⟩ := h
            subst he
            subst hr
            exact ⟨ops0, out, rfl, hbase, hch0⟩


theorem parseGo_exprOK : ∀ fuel mode ts e rest, mode.carriedOK →
    parseGo fuel mode ts = some (e, rest) → exprOK e := by
  intro fuel
  induction fuel with
  | zero =>
    intro mode ts e rest _ h
    simp [parseGo] at h
  | succ fuel ih =>
    intro mode ts e rest hok h
    cases mode with
    | expr p =>
      cases ts with
      | nil => simp [parseGo] at h
      | cons t ts1 =>
        cases t with
        | operand v =>
          exact ih (PMode.loop p (Expr.num v)) ts1 e rest trivial h
        | operator o =>
          simp only [parseGo] at h
          split at h
          · rename_i ho
            split at h
            · rename_i e1 o3 rest2 heq
              split at h
              · rename_i ho3
                have he1 : exprOK e1 := ih (PMode.expr 10) ts1 e1 _ trivial heq
                exact ih (PMode.loop p e1) rest2 e rest he1 h
              · exact absurd h (by simp)
            · exact absurd h (by simp)
          · exact absurd h (by simp)
    | loop p left =>
      cases ts with
      | nil =>
        simp only [parseGo, Option.some_inj, Prod.mk.injEq] at h
        obtain ⟨he, hr⟩ := h
        subst he
        exact hok
      | cons t ts1 =>
        cases t with
        | operand v =>
          simp only [parseGo, Option.some_inj, Prod.mk.injEq] at h
          obtain ⟨he, hr⟩ := h
          subst he
          exact hok
        | operator o =>
          simp only [parseGo] at h
          split at h
          · rename_i hg
            split at h
            · rename_i r rest2 heq
              have hr : exprOK r := ih (PMode.expr (getOperatorPrecedence o - 1)) ts1 r _ trivial heq
              have hbin : exprOK (Expr.bin o left r) := ⟨hg.1, hok, hr⟩
              exact ih (PMode.loop p (Expr.bin o left r)) rest2 e rest hbin h
            · exact absurd h (by simp)
          · simp only [Option.some_inj, Prod.mk.injEq] at h
            obtain ⟨he, hr⟩ := h
            subst he
            exact hok

theorem parseFull_elim (ts : List Token) (e : Expr) (hf : parseFull ts = some e) :
    parseGo (2 * ts.length + 4) (PMode.expr 10) ts = some (e, []) := by
  unfold parseFull at hf
  split at hf
  · rename_i e1 heq
    injection hf with hf1
    subst hf1
    exact heq
  · exact absurd hf (by simp)

theorem shuntingYard_of_parse (ts : List Token) (e : Expr) (hf : parseFull ts = some e) :
    shuntingYard ts = (postfixOf e, false) := by
  have hE := parseFull_elim ts e hf
  obtain ⟨ops, out2, hrun, hout, hch⟩ :=
    (syRun_parseGo (2 * ts.length + 4)).1 10 ts e [] [] [] hE
      (by intro t ht; simp at ht)
  unfold shuntingYard
  rw [hrun, List.append_nil, syRun_nil, takeWhile_ne_lparen ops (fun t ht => (hch t ht).1),
    hout]
  simp

theorem parseFull_exprOK (ts : List Token) (e : Expr) (hf : parseFull ts = some e) :
    exprOK e :=
  parseGo_exprOK (2 * ts.length + 4) (PMode.expr 10) ts e [] trivial (parseFull_elim ts e hf)

theorem evaluateTokens_oracle (ts : List Token) (e : Expr) (hf : parseFull ts = some e) :
    evaluateTokens ts = recursiveDescentEval ts := by
  have hsy := shuntingYard_of_parse ts e hf
  have hok := parseFull_exprOK ts e hf
  unfold evaluateTokens recursiveDescentEval
  rw [hsy, hf]
  simp only [if_neg Bool.false_ne_true]
  cases hv : evalA e with
  | some v =>
    have := (evalRun_postfixOf e hok).1 v hv [] []
    rw [List.append_nil] at this
    rw [this]
    rfl
  | none =>
    have := (evalRun_postfixOf e hok).2 hv [] []
    rw [List.append_nil] at this
    rw [this]

/-- Claim C3: for every well-formed expression (the tokenizer succeeds and
the recursive-descent oracle parses the full token sequence),
EvaluateExpression — tokenize, convert to postfix via shunting-yard,
evaluate with an operand stack — returns the same value and success flag
as the direct recursive-descent evaluation with the same precedence
table. -/
theorem C3_postfix_equals_recursive_descent (s : List Char) (h1 : (tokenize s).failed = false)
    (h2 : (parseFull (tokenize s).tokens).isSome = true) :
    evaluateExpression s = recursiveDescentEval (tokenize s).tokens := by
  obtain ⟨e, he⟩ := Option.isSome_iff_exists.mp h2
  have hne : (tokenize s).tokens ≠ [] := by
    intro h0
    rw [h0] at he
    rw [show parseFull ([] : List Token) = none from rfl] at he
    exact Option.noConfusion he
  unfold evaluateExpression
  have hcond : ¬((tokenize s).failed = true ∨ (tokenize s).tokens.length = 0) := by
    simp [h1, List.length_eq_zero, hne]
  rw [if_neg hcond]
  exact evaluateTokens_oracle _ e he

/-- Witness for C3 on the spec's own example expression. -/
theorem C3_postfix_equals_recursive_descent_witness :
    (tokenize "2 + 3 * 4".toList).failed = false ∧
    (parseFull (tokenize "2 + 3 * 4".toList).tokens).isSome = true ∧
    evaluateExpression "2 + 3 * 4".toList =
      recursiveDescentEval (tokenize "2 + 3 * 4".toList).tokens :=
  ⟨by decide, by decide, C3_postfix_equals_recursive_descent _ (by decide) (by decide)⟩
